import Mathlib

/-!
Verification development for the Leara memory/task knowledge engine
(`src/db/queries.rs`, `src/db/migrations.rs`, `src/system/memory_service.rs`,
`src/models/memory.rs`).

The Rust code is shallowly embedded: each SQLite table is a `List` of typed
rows, each query function is a Lean function over such lists, and the dynamic
WHERE clauses are embedded as lists of boolean conditions mirroring the
`conditions` vectors built in `queries.rs`.  Timestamps are modelled as `Int`
time units (the source stores RFC3339 UTC strings, whose lexicographic order
agrees with chronological order, and compares them through SQLite); a second,
raw row type with possibly malformed timestamp strings is used where parse
failure matters.  Relevance scores (`f64` in the source) are embedded as
integers scaled by 10: every component of the source score is an integral
multiple of 0.1, so the scaled integers order candidate memories the same way
except possibly among exact rational ties, which no theorem below depends on.
-/

namespace Leara

/-- Character-list prefix test, used to build the substring tests below. -/
def isPrefChars : List Char → List Char → Bool
  | [], _ => true
  | _ :: _, [] => false
  | p :: ps, h :: hs => p == h && isPrefChars ps hs

/-- Character-list substring test: does `pat` occur contiguously in the list? -/
def hasSubChars (pat : List Char) : List Char → Bool
  | [] => isPrefChars pat []
  | h :: hs => isPrefChars pat (h :: hs) || hasSubChars pat hs

/-- Embedding of Rust `str::contains` (case-sensitive substring test). -/
def rustContains (hay needle : String) : Bool :=
  hasSubChars needle.data hay.data

/-- Lower-casing, done character-wise on the underlying list (the source's
`to_lowercase`; identical on the ASCII texts involved). -/
def toLowerStr (s : String) : String :=
  ⟨s.data.map Char.toLower⟩

/-- Embedding of SQLite `column LIKE` with a pattern wrapped in percent signs (ASCII-case-insensitive
substring test, the default LIKE behaviour). -/
def sqlLike (hay pat : String) : Bool :=
  hasSubChars (toLowerStr pat).data (toLowerStr hay).data

/-- Helper for `splitWhitespace`: walks the characters, accumulating the
current word in reverse. -/
def splitWsAux : List Char → List Char → List String
  | [], acc => if acc.isEmpty then [] else [⟨acc.reverse⟩]
  | c :: cs, acc =>
      if c.isWhitespace then
        (if acc.isEmpty then [] else [(⟨acc.reverse⟩ : String)]) ++ splitWsAux cs []
      else splitWsAux cs (c :: acc)

/-- Embedding of Rust `str::split_whitespace` (maximal nonempty runs of
non-whitespace characters). -/
def splitWhitespace (s : String) : List String :=
  splitWsAux s.data []

/-- Helper for `replaceStr`: fuel-indexed scan replacing left-most,
non-overlapping occurrences of `pat`. -/
def replaceAux (pat repl : List Char) : List Char → Nat → List Char
  | l, 0 => l
  | [], _ => []
  | c :: cs, fuel + 1 =>
      if isPrefChars pat (c :: cs) then
        repl ++ replaceAux pat repl ((c :: cs).drop pat.length) fuel
      else
        c :: replaceAux pat repl cs fuel

/-- Embedding of Rust `str::replace` (all left-most non-overlapping
occurrences; the source only ever passes nonempty patterns). -/
def replaceStr (s pat repl : String) : String :=
  if pat.data.isEmpty then s
  else ⟨replaceAux pat.data repl.data s.data s.data.length⟩

/-- Embedding of Rust `str::trim` (strip leading and trailing whitespace). -/
def trimStr (s : String) : String :=
  ⟨((s.data.dropWhile Char.isWhitespace).reverse.dropWhile Char.isWhitespace).reverse⟩

/-- Embeds the `models/memory.rs` struct `Memory` (metadata abstracted to its JSON text). -/
structure Memory where
  id : Int
  key : String
  value : String
  category : String
  priority : Int
  metadata : Option String
  created_at : Int
  updated_at : Int
  expires_at : Option Int
  is_active : Bool
deriving DecidableEq, Repr

/-- Embeds the `models/memory.rs` struct `MemoryQuery`. -/
structure MemoryQuery where
  key : Option String
  category : Option String
  priority : Option Int
  limit : Option Int
  offset : Option Int
  include_expired : Option Bool
deriving DecidableEq, Repr

/-- Embeds the `models/memory.rs` struct `MemoryResponse` (`total` is a row count). -/
structure MemoryResponse where
  memories : List Memory
  total : Nat
deriving DecidableEq, Repr

/-- Embeds the `models/memory.rs` struct `Task`. -/
structure Task where
  id : Int
  title : String
  description : Option String
  status : String
  priority : Int
  due_date : Option Int
  created_at : Int
  updated_at : Int
  completed_at : Option Int
  context : Option String
  tags : Option String
deriving DecidableEq, Repr

/-- Embeds the `models/memory.rs` struct `TaskQuery`. -/
structure TaskQuery where
  status : Option String
  priority : Option Int
  limit : Option Int
  offset : Option Int
  include_completed : Option Bool
deriving DecidableEq, Repr

/-- Embeds the `models/memory.rs` struct `TaskResponse`. -/
structure TaskResponse where
  tasks : List Task
  total : Nat
deriving DecidableEq, Repr

/-- Embeds the `models/memory.rs` struct `SessionContext`. -/
structure SessionContext where
  id : Int
  session_id : String
  context_key : String
  context_value : String
  created_at : Int
  updated_at : Int
deriving DecidableEq, Repr

/-- Embeds the `models/memory.rs` struct `SessionContextQuery`. -/
structure SessionContextQuery where
  session_id : Option String
  context_key : Option String
  limit : Option Int
  offset : Option Int
deriving DecidableEq, Repr

/-- Embeds the `models/memory.rs` struct `SessionContextResponse`. -/
structure SessionContextResponse where
  contexts : List SessionContext
  total : Nat
deriving DecidableEq, Repr

/-- Embeds the `models/memory.rs` enum `MemoryCategory`. -/
inductive MemoryCategory where
  | general
  | conversation
  | task
  | reminder
  | preference
  | context
  | system
  | project
  | custom (s : String)
deriving DecidableEq, Repr

/-- Embeds `MemoryCategory::as_str`. -/
def MemoryCategory.as_str : MemoryCategory → String
  | .general => "general"
  | .conversation => "conversation"
  | .task => "task"
  | .reminder => "reminder"
  | .preference => "preference"
  | .context => "context"
  | .system => "system"
  | .project => "project"
  | .custom s => s

/-- Embeds `MemoryCategory::from_str`. -/
def MemoryCategory.from_str (s : String) : MemoryCategory :=
  match toLowerStr s with
  | "general" => .general
  | "conversation" => .conversation
  | "task" => .task
  | "reminder" => .reminder
  | "preference" => .preference
  | "context" => .context
  | "system" => .system
  | "project" => .project
  | _ => .custom s

/-- SQLite `LIMIT ?` semantics: a negative limit means "no limit". -/
def sqlTake (n : Int) (l : List α) : List α :=
  if n < 0 then l else l.take n.toNat

/-- SQLite `OFFSET ?` semantics: a negative offset behaves like 0
(`Int.toNat` maps negatives to 0). -/
def sqlDrop (n : Int) (l : List α) : List α :=
  l.drop n.toNat

/-- SQL `ORDER BY priority DESC, updated_at DESC` on memory rows, as the
relation "comes no later than" used by the stable sort. -/
def memOrder (a b : Memory) : Prop :=
  b.priority < a.priority ∨ (b.priority = a.priority ∧ b.updated_at ≤ a.updated_at)

instance : DecidableRel memOrder := fun a b => by
  unfold memOrder; infer_instance

/-- SQL `ORDER BY priority DESC, created_at DESC` on task rows. -/
def taskOrder (a b : Task) : Prop :=
  b.priority < a.priority ∨ (b.priority = a.priority ∧ b.created_at ≤ a.created_at)

instance : DecidableRel taskOrder := fun a b => by
  unfold taskOrder; infer_instance

/-- The expiry condition `(expires_at IS NULL OR expires_at > now)` pushed by
`get_enhanced_memories` when `include_expired` is absent or false. -/
def notExpired (now : Int) (m : Memory) : Bool :=
  match m.expires_at with
  | none => true
  | some e => now < e

/-- A filter field that is present contributes one condition; an absent one
contributes none (the `if let Some(..) = query...` pushes in the source). -/
def optCond {α β : Type} (o : Option β) (f : β → α → Bool) : List (α → Bool) :=
  match o with
  | some x => [f x]
  | none => []

/-- The `conditions` vector built by `get_enhanced_memories`
(queries.rs:313-338), in source order: key LIKE, category =, priority =,
expiry check, `is_active = 1`. -/
def memoryConditions (q : MemoryQuery) (now : Int) : List (Memory → Bool) :=
  optCond q.key (fun k m => sqlLike m.key k) ++
  optCond q.category (fun c m => m.category == c) ++
  optCond q.priority (fun p m => m.priority == p) ++
  (if q.include_expired.getD false then [] else [notExpired now]) ++
  [fun m => m.is_active]

/-- The conjunction of `memoryConditions`: the WHERE predicate shared by the
count query and the page query in `get_enhanced_memories` (both are rendered
from the same `where_clause` and the same `params_vec`). -/
def memoryWhere (q : MemoryQuery) (now : Int) (m : Memory) : Bool :=
  (memoryConditions q now).all (fun c => c m)

/-- Embeds the `queries.rs` function `get_enhanced_memories` (lines 312-407): one COUNT(*) over
the WHERE predicate, then the page `ORDER BY priority DESC, updated_at DESC
LIMIT ? OFFSET ?` over the same predicate. -/
def get_enhanced_memories (db : List Memory) (q : MemoryQuery) (now : Int) :
    MemoryResponse :=
  let matching := db.filter (memoryWhere q now)
  let total := matching.length
  let limit := q.limit.getD 50
  let offset := q.offset.getD 0
  let page := sqlTake limit (sqlDrop offset (matching.insertionSort memOrder))
  { memories := page, total := total }

/-- The `conditions` vector built by `get_tasks` (queries.rs:447-462), in
source order: status =, priority =, and `status != "completed"` (as written in the SQL) unless
`include_completed` is true. -/
def taskConditions (q : TaskQuery) : List (Task → Bool) :=
  optCond q.status (fun s t => t.status == s) ++
  optCond q.priority (fun p t => t.priority == p) ++
  (if q.include_completed.getD false then []
   else [fun t => !(t.status == "completed")])

/-- The WHERE predicate shared by the count and page queries of `get_tasks`. -/
def taskWhere (q : TaskQuery) (t : Task) : Bool :=
  (taskConditions q).all (fun c => c t)

/-- Embeds the `queries.rs` function `get_tasks` (lines 446-535). -/
def get_tasks (db : List Task) (q : TaskQuery) : TaskResponse :=
  let matching := db.filter (taskWhere q)
  let total := matching.length
  let limit := q.limit.getD 50
  let offset := q.offset.getD 0
  let page := sqlTake limit (sqlDrop offset (matching.insertionSort taskOrder))
  { tasks := page, total := total }

/-- Embeds the `queries.rs` function `update_task_status` (lines 547-567): a direct UPDATE by id;
when the new status is "completed" it also sets `completed_at = now`, and for
any other status the `completed_at` column is not part of the UPDATE. -/
def update_task_status (db : List Task) (task_id : Int) (status : String)
    (now : Int) : List Task :=
  db.map (fun t =>
    if t.id == task_id then
      if status == "completed" then
        { t with status := status, completed_at := some now, updated_at := now }
      else
        { t with status := status, updated_at := now }
    else t)

/-- Embeds the `queries.rs` function `insert_enhanced_memory` (lines 208-225): INSERT OR REPLACE
into the `memory` table, whose `key` column is UNIQUE (migrations.rs:58), so
any existing row sharing the key is replaced. -/
def insert_enhanced_memory (db : List Memory) (m : Memory) : List Memory :=
  db.filter (fun r => !(r.key == m.key)) ++ [m]

/-- Embeds the `queries.rs` function `get_memory_by_key` (lines 260-298): SELECT WHERE key = ?,
first row if any. -/
def get_memory_by_key (db : List Memory) (key : String) : Option Memory :=
  (db.filter (fun r => r.key == key)).head?

/-- Embeds the `queries.rs` function `insert_task` (lines 418-435): plain INSERT. -/
def insert_task (db : List Task) (t : Task) : List Task :=
  db ++ [t]

/-- Embeds the `queries.rs` function `insert_session_context` (lines 578-591): INSERT OR REPLACE
into `session_context`, which is UNIQUE(session_id, context_key)
(migrations.rs:98). -/
def insert_session_context (db : List SessionContext) (c : SessionContext) :
    List SessionContext :=
  db.filter (fun r => !(r.session_id == c.session_id && r.context_key == c.context_key)) ++ [c]

/-- Embeds the `queries.rs` function `get_session_contexts` (lines 602-639).  The source builds
the WHERE conditions but then, "to avoid parameter complexity", returns the
whole-table count when no filter is present, the constant 0 when a filter is
present, and always an empty row list. -/
def get_session_contexts (db : List SessionContext) (q : SessionContextQuery) :
    SessionContextResponse :=
  let total := if q.session_id.isNone && q.context_key.isNone then db.length else 0
  { contexts := [], total := total }

/-- Raw stored timestamp: either a well-formed RFC3339 value (abstracted to
its `Int` time) or a malformed text. -/
inductive RawTs where
  | good (t : Int)
  | bad (s : String)
deriving DecidableEq, Repr

/-- Embedding of `chrono::DateTime::parse_from_rfc3339` on a stored value. -/
def parseTs : RawTs → Option Int
  | .good t => some t
  | .bad _ => none

/-- A raw `memory` table row as stored, with timestamp columns kept as raw
text (used where parse failure matters). -/
structure RawMemoryRow where
  id : Int
  key : String
  value : String
  category : String
  priority : Int
  metadata : Option String
  created_at : RawTs
  updated_at : RawTs
  expires_at : Option RawTs
  is_active : Bool
deriving DecidableEq, Repr

/-- The row-conversion closure of `get_enhanced_memories` (queries.rs:376-404):
`created_at`/`updated_at` fall back to "now" via `unwrap_or_else`, and a
malformed `expires_at` becomes `None` via `.ok().map(..)`.  Total: this read
never aborts on a malformed timestamp. -/
def rowToMemory_enhanced (now : Int) (r : RawMemoryRow) : Memory :=
  { id := r.id
    key := r.key
    value := r.value
    category := r.category
    priority := r.priority
    metadata := r.metadata
    created_at := (parseTs r.created_at).getD now
    updated_at := (parseTs r.updated_at).getD now
    expires_at := r.expires_at.bind parseTs
    is_active := r.is_active }

/-- The row-conversion closure of `search_memories` (queries.rs:663-684):
`created_at`/`updated_at` fall back to "now", but `expires_at` is parsed with
`.unwrap()` (queries.rs:681), which panics on a malformed value.  The panic is
embedded as `none`. -/
def rowToMemory_search (now : Int) (r : RawMemoryRow) : Option Memory :=
  match r.expires_at with
  | none =>
      some { id := r.id, key := r.key, value := r.value, category := r.category
             priority := r.priority, metadata := r.metadata
             created_at := (parseTs r.created_at).getD now
             updated_at := (parseTs r.updated_at).getD now
             expires_at := none, is_active := r.is_active }
  | some ts =>
      (parseTs ts).map (fun e =>
        { id := r.id, key := r.key, value := r.value, category := r.category
          priority := r.priority, metadata := r.metadata
          created_at := (parseTs r.created_at).getD now
          updated_at := (parseTs r.updated_at).getD now
          expires_at := some e, is_active := r.is_active })

/-- Row order of `search_memories` (`ORDER BY priority DESC, updated_at DESC`);
the secondary text comparison of raw timestamps is abstracted (no theorem
below depends on the order among equal priorities). -/
def rawMemOrder (a b : RawMemoryRow) : Prop :=
  b.priority ≤ a.priority

instance : DecidableRel rawMemOrder := fun a b => by
  unfold rawMemOrder; infer_instance

/-- Embeds the `queries.rs` function `search_memories` (lines 650-688): WHERE key LIKE ? OR value
LIKE ? OR category LIKE ?, COUNT(*) over the same predicate, page LIMIT 50.
The result is `none` when the row conversion panics (malformed `expires_at`,
the `.unwrap()` at queries.rs:681). -/
def search_memories (db : List RawMemoryRow) (query : String) (now : Int) :
    Option MemoryResponse :=
  let pred := fun (r : RawMemoryRow) =>
    sqlLike r.key query || sqlLike r.value query || sqlLike r.category query
  let matching := db.filter pred
  let total := matching.length
  let page := (matching.insertionSort rawMemOrder).take 50
  (page.mapM (rowToMemory_search now)).map (fun ms => { memories := ms, total := total })

namespace MemoryService

/-- Embeds the `memory_service.rs` method `categorize_content` (lines 276-320): ordered
case-insensitive substring rules, first match wins. -/
def categorize_content (content : String) (context : Option String) :
    MemoryCategory :=
  let cl := toLowerStr content
  let _contextl := (context.map toLowerStr).getD ("")
  if rustContains cl ("remind") || rustContains cl ("todo") ||
     rustContains cl ("task") || rustContains cl ("due") ||
     rustContains cl ("deadline") || rustContains cl ("schedule") then .task
  else if rustContains cl ("reminder") || rustContains cl ("remember") ||
     rustContains cl ("don\x27t forget") || rustContains cl ("make sure") then .reminder
  else if rustContains cl ("project") || rustContains cl ("repository") ||
     rustContains cl ("code") || rustContains cl ("development") ||
     rustContains cl ("file") || rustContains cl ("system.rs") then .project
  else if rustContains cl ("conversation") || rustContains cl ("chat") ||
     rustContains cl ("discussion") || rustContains cl ("talk") then .conversation
  else if rustContains cl ("system") || rustContains cl ("computer") ||
     rustContains cl ("terminal") || rustContains cl ("command") then .system
  else if rustContains cl ("preference") || rustContains cl ("setting") ||
     rustContains cl ("config") || rustContains cl ("option") then .preference
  else .general

/-- Embeds the `memory_service.rs` method `determine_priority` (lines 330-361): ordered
substring rules, first match wins, default 3. -/
def determine_priority (content : String) (context : Option String) : Int :=
  let cl := toLowerStr content
  let _contextl := (context.map toLowerStr).getD ("")
  if rustContains cl ("urgent") || rustContains cl ("important") ||
     rustContains cl ("critical") || rustContains cl ("asap") ||
     rustContains cl ("emergency") then 5
  else if rustContains cl ("soon") || rustContains cl ("today") ||
     rustContains cl ("this week") || rustContains cl ("deadline") then 4
  else if rustContains cl ("later") || rustContains cl ("next week") ||
     rustContains cl ("when you can") then 3
  else if rustContains cl ("sometime") || rustContains cl ("eventually") ||
     rustContains cl ("no rush") then 2
  else 3

/-- The stop-word list of `extract_keywords` (memory_service.rs:413-419). -/
def stopWords : List String :=
  ["the", "a", "an", "and", "or", "but", "in", "on", "at", "to", "for", "of",
   "with", "by", "is", "are", "was", "were", "be", "been", "being", "have",
   "has", "had", "do", "does", "did", "will", "would", "could", "should",
   "may", "might", "can", "this", "that", "these", "those", "i", "you", "he",
   "she", "it", "we", "they", "me", "him", "her", "us", "them", "my", "your",
   "his", "her", "its", "our", "their", "mine", "yours", "hers", "ours", "theirs"]

/-- Embeds the `memory_service.rs` method `extract_keywords` (lines 412-426): lower-case, split
on whitespace, drop stop words and tokens of length at most 2. -/
def extract_keywords (text : String) : List String :=
  (splitWhitespace (toLowerStr text)).filter
    (fun w => !(stopWords.contains w) && w.length > 2)

/-- Embeds the `memory_service.rs` method `calculate_relevance_score` (lines 436-469), scaled
by 10 so that every component is an integer: value-keyword match 10.0 becomes
100, key-keyword match 15.0 becomes 150, category match 5.0 becomes 50,
priority p becomes 10p, and the recency bonus `max(0, 30 - ageDays) * 0.1`
becomes `max (30 - ageDays) 0`.  `ageDays` is `Duration::num_days`, i.e.
truncating division of the age by 86400 time units. -/
def calculate_relevance_score (m : Memory) (query : String) (now : Int) : Int :=
  let query_keywords := extract_keywords query
  let memory_keywords := extract_keywords m.value
  let key_keywords := extract_keywords m.key
  let base := query_keywords.foldl
    (fun s qk =>
      s + (if memory_keywords.contains qk then 100 else 0)
        + (if key_keywords.contains qk then 150 else 0)) 0
  let cat :=
    if MemoryCategory.from_str m.category = categorize_content query none
    then 50 else 0
  let days_old := (now - m.updated_at).tdiv 86400
  base + cat + m.priority * 10 + max (30 - days_old) 0

/-- Embeds the `memory_service.rs` method `find_relevant_memories` (lines 150-200): one
category-filtered fetch per extracted keyword (limit 10), then one
key-substring fetch per keyword (limit 5), all results concatenated, sorted
by descending relevance score (stable), then truncated to `limit`
(default 10). -/
def find_relevant_memories (db : List Memory) (query : String)
    (limit : Option Int) (now : Int) : List Memory :=
  let keywords := extract_keywords query
  let byCategory := keywords.flatMap (fun kw =>
    let category := categorize_content kw none
    (get_enhanced_memories db
      { key := none, category := some category.as_str, priority := none,
        limit := some 10, offset := some 0, include_expired := some false }
      now).memories)
  let byKey := keywords.flatMap (fun kw =>
    (get_enhanced_memories db
      { key := some kw, category := none, priority := none,
        limit := some 5, offset := some 0, include_expired := some false }
      now).memories)
  let relevant := byCategory ++ byKey
  let sorted := relevant.insertionSort (fun a b =>
    calculate_relevance_score b query now ≤ calculate_relevance_score a query now)
  let lim := limit.getD 10
  if lim < 0 then sorted else sorted.take lim.toNat

/-- Embeds the `memory_service.rs` method `get_pending_tasks` (lines 209-221): always issues
the same query (status = "pending", limit 50, offset 0, completed excluded);
the `include_overdue` argument is never read. -/
def get_pending_tasks (db : List Task) (include_overdue : Bool) : List Task :=
  (get_tasks db
    { status := some ("pending"), priority := none, limit := some 50,
      offset := some 0, include_completed := some false }).tasks

/-- Computes 18:00 on the calendar day of `now` (`date_naive().and_hms_opt(18,0,0)`),
with days modelled as 86400-unit blocks. -/
def atSixPm (now : Int) : Int :=
  now - now % 86400 + 18 * 3600

/-- Embeds the `memory_service.rs` method `parse_task_input` (lines 370-403): its own priority
rules (distinct from `determine_priority`), its own due-date markers, and a
title produced by stripping the (case-sensitive) marker substrings from the
original text and trimming.  Returns (title, description, priority, due). -/
def parse_task_input (input : String) (now : Int) :
    String × Option String × Int × Option Int :=
  let il := toLowerStr input
  let priority : Int :=
    if rustContains il ("urgent") || rustContains il ("critical") then 5
    else if rustContains il ("important") || rustContains il ("high priority") then 4
    else if rustContains il ("low priority") then 2
    else 3
  let due_date : Option Int :=
    if rustContains il ("today") then some (atSixPm now)
    else if rustContains il ("tomorrow") then some (atSixPm (now + 86400))
    else if rustContains il ("this week") then some (now + 7 * 86400)
    else if rustContains il ("next week") then some (now + 14 * 86400)
    else none
  let t1 := replaceStr input ("urgent") ("")
  let t2 := replaceStr t1 ("important") ("")
  let t3 := replaceStr t2 ("critical") ("")
  let t4 := replaceStr t3 ("today") ("")
  let t5 := replaceStr t4 ("tomorrow") ("")
  let t6 := replaceStr t5 ("this week") ("")
  let t7 := replaceStr t6 ("next week") ("")
  (trimStr t7, none, priority, due_date)

/-- Embeds the `memory_service.rs` method `extract_tags` (lines 478-501). -/
def extract_tags (text : String) : Option String :=
  let tl := toLowerStr text
  let tags :=
    (if rustContains tl ("rust") || rustContains tl ("cargo") then [("rust" : String)] else []) ++
    (if rustContains tl ("system.rs") || rustContains tl ("system") then ["system"] else []) ++
    (if rustContains tl ("leara") then ["leara"] else []) ++
    (if rustContains tl ("project") then ["project"] else [])
  if tags.isEmpty then none else some (String.intercalate (",") tags)

/-- Embeds the `memory_service.rs` method `store_session_context` (lines 232-246): builds a
`SessionContext` stamped with "now" and upserts it. -/
def store_session_context (db : List SessionContext) (session_id context_key
    context_value : String) (now : Int) : List SessionContext :=
  insert_session_context db
    { id := 0, session_id := session_id, context_key := context_key,
      context_value := context_value, created_at := now, updated_at := now }

/-- Embeds the `memory_service.rs` method `get_session_context` (lines 255-266): queries
`get_session_contexts` with the session-id filter and returns its rows. -/
def get_session_context (db : List SessionContext) (session_id : String) :
    List SessionContext :=
  (get_session_contexts db
    { session_id := some session_id, context_key := none,
      limit := some 50, offset := some 0 }).contexts

/-- The two-table store the summary reads from. -/
structure Store where
  memories : List Memory
  tasks : List Task
deriving DecidableEq, Repr

/-- The fixed sentence of `get_memory_summary`. -/
def noResultsMsg : String := "No recent memories or pending tasks found."

/-- The memory query issued by `get_memory_summary`
(memory_service.rs:512-519): priority exactly 4, limit 5. -/
def summaryMemQuery : MemoryQuery :=
  { key := none, category := none, priority := some 4, limit := some 5,
    offset := some 0, include_expired := some false }

/-- One line of the summary's memory section. -/
def memoryLine (m : Memory) : String :=
  "- " ++ m.key ++ ": " ++ m.value ++ "\n"

/-- One line of the summary's task section (`%Y-%m-%d` date formatting is
abstracted to rendering the raw due time). -/
def taskLine (t : Task) : String :=
  let due_info :=
    match t.due_date with
    | some d => " (due: " ++ toString d ++ ")"
    | none => ""
  "- " ++ t.title ++ " [Priority: " ++ toString t.priority ++ "]" ++ due_info ++ "\n"

/-- The text pushed for the memory section of the summary
(memory_service.rs:521-529): nothing when the query returned no rows. -/
def memSection (memories : List Memory) : String :=
  if memories.isEmpty then ("") else
    "Recent important memories:\n" ++ String.join (memories.map memoryLine) ++ "\n"

/-- The text pushed for the pending-task section of the summary
(memory_service.rs:532-543). -/
def taskSection (tasks : List Task) : String :=
  if tasks.isEmpty then ("") else
    "Pending tasks:\n" ++ String.join (tasks.map taskLine)

/-- Embeds the `memory_service.rs` method `get_memory_summary` (lines 507-550): the priority-4
memory section (limit 5), then the pending-task section
(`get_pending_tasks(true)`), and the fixed sentence when the composed text is
empty. -/
def get_memory_summary (st : Store) (now : Int) : String :=
  let summary :=
    memSection (get_enhanced_memories st.memories summaryMemQuery now).memories ++
    taskSection (get_pending_tasks st.tasks true)
  if summary = "" then noResultsMsg else summary

end MemoryService

/-- Folding a sequence of `insert_enhanced_memory` writes over a store. -/
def applyWrites (db : List Memory) (ws : List Memory) : List Memory :=
  ws.foldl insert_enhanced_memory db

/-- The UNIQUE-key invariant of the `memory` table (migrations.rs:58). -/
def NodupKeys (db : List Memory) : Prop :=
  (db.map Memory.key).Nodup

instance : DecidablePred NodupKeys := fun db => by
  unfold NodupKeys; infer_instance

/-- For claim C7, the spec's words (section 4.1 `priority`): ordered substring
rules; urgency words give 5, near-term words 4, softened words 3, low-urgency
words 2, else default 3; first matching rule wins. -/
def spec41Priority (text : String) : Int :=
  let tl := toLowerStr text
  if rustContains tl ("urgent") || rustContains tl ("important") ||
     rustContains tl ("critical") || rustContains tl ("asap") ||
     rustContains tl ("emergency") then 5
  else if rustContains tl ("soon") || rustContains tl ("today") ||
     rustContains tl ("this week") || rustContains tl ("deadline") then 4
  else if rustContains tl ("later") || rustContains tl ("next week") ||
     rustContains tl ("when you can") then 3
  else if rustContains tl ("sometime") || rustContains tl ("eventually") ||
     rustContains tl ("no rush") then 2
  else 3

/-- The priority rules `parse_task_input` actually applies
(memory_service.rs:378-384), stated from the amended claim's words:
urgent/critical give 5, important/high priority give 4, low priority gives 2,
else 3, first matching rule wins. -/
def parseInputPriorityRules (text : String) : Int :=
  let tl := toLowerStr text
  if rustContains tl ("urgent") || rustContains tl ("critical") then 5
  else if rustContains tl ("important") || rustContains tl ("high priority") then 4
  else if rustContains tl ("low priority") then 2
  else 3

/-- A memory whose key and category both match the query "task stuff". -/
def memTaskList : Memory :=
  { id := 1, key := "task_list", value := "buy milk", category := "task",
    priority := 3, metadata := none, created_at := 0, updated_at := 0,
    expires_at := none, is_active := true }

/-- A priority-5 active memory. -/
def mem5ex : Memory :=
  { id := 1, key := "alpha_notes", value := "top secret", category := "general",
    priority := 5, metadata := none, created_at := 0, updated_at := 0,
    expires_at := none, is_active := true }

/-- A pending task. -/
def taskPendingEx : Task :=
  { id := 1, title := "fix build", description := none, status := "pending",
    priority := 3, due_date := none, created_at := 0, updated_at := 0,
    completed_at := none, context := none, tags := none }

/-- A store holding one priority-5 memory and one pending task. -/
def storeEx : MemoryService.Store :=
  { memories := [mem5ex], tasks := [taskPendingEx] }

/-- First write to the key "dup_key". -/
def memW1 : Memory :=
  { id := 1, key := "dup_key", value := "v1", category := "general",
    priority := 3, metadata := none, created_at := 0, updated_at := 0,
    expires_at := none, is_active := true }

/-- Second write to the key "dup_key". -/
def memW2 : Memory :=
  { id := 2, key := "dup_key", value := "v2", category := "general",
    priority := 3, metadata := none, created_at := 1, updated_at := 1,
    expires_at := none, is_active := true }

/-- A task already completed (with its completion stamp set). -/
def taskDoneEx : Task :=
  { id := 1, title := "ship release", description := none, status := "completed",
    priority := 3, due_date := none, created_at := 0, updated_at := 0,
    completed_at := some 5, context := none, tags := none }

/-- A stored memory row with malformed `created_at` and `expires_at` text. -/
def rawRowEx : RawMemoryRow :=
  { id := 1, key := "alpha_key", value := "v", category := "general",
    priority := 1, metadata := none, created_at := RawTs.bad ("xxx"),
    updated_at := RawTs.good 0, expires_at := some (RawTs.bad ("garbage")),
    is_active := true }

/-- A memory-query with every filter field absent. -/
def emptyMemQuery : MemoryQuery :=
  { key := none, category := none, priority := none, limit := none,
    offset := none, include_expired := none }

/-- A task-query with every filter field absent. -/
def emptyTaskQuery : TaskQuery :=
  { status := none, priority := none, limit := none, offset := none,
    include_completed := none }

/-- C10: `get_pending_tasks` builds the same `TaskQuery` whatever
`include_overdue` is, so both flag values return identical results on every
store state. -/
theorem C10_include_overdue_has_no_effect :
    ∀ (db : List Task) (a b : Bool),
      MemoryService.get_pending_tasks db a = MemoryService.get_pending_tasks db b := by
  intro db a b
  rfl

/-- C4 (counter-evidence): after `store_session_context("s1","k1","v1")`
succeeds, the service-level `get_session_context("s1")` returns the empty
list, and the underlying `get_session_contexts` reports total 0 for the
filtered query — the stored entry is not returned, contrary to the claim. -/
theorem C4_get_after_store_returns_nothing :
    MemoryService.get_session_context
      (MemoryService.store_session_context [] ("s1") ("k1") ("v1") 0) ("s1") = [] ∧
    (get_session_contexts
      (MemoryService.store_session_context [] ("s1") ("k1") ("v1") 0)
      { session_id := some ("s1"), context_key := none,
        limit := some 50, offset := some 0 }).total = 0 := by
  exact ⟨rfl, rfl⟩

/-- C3 (counter-evidence): on a corpus with one memory whose key and category
both match the query, `find_relevant_memories` returns that entry twice — the
candidate union is never deduplicated by key. -/
theorem C3_search_returns_duplicate_keys :
    MemoryService.find_relevant_memories [memTaskList] ("task stuff") none 0
      = [memTaskList, memTaskList] := by
  decide

/-- C7 (counterexample): on "asap fix the server", the priority component of
`parse_task_input` is 3, while the section-4.1 rules (urgency word "asap")
give 5. -/
theorem C7_counterexample :
    (MemoryService.parse_task_input ("asap fix the server") 0).2.2.1
      ≠ spec41Priority ("asap fix the server") := by
  decide

/-- C7 (amended): for every input text, the priority component of
`parse_task_input` follows that function's own ordered rules — urgent or
critical give 5, else important or high priority give 4, else low priority
gives 2, else 3 — not the section-4.1 rules. -/
theorem C7_amended_priority_rules :
    ∀ (input : String) (now : Int),
      (MemoryService.parse_task_input input now).2.2.1 = parseInputPriorityRules input := by
  intro input now
  rfl

/-- C9 (counter-evidence): reading a stored row whose `expires_at` text is
malformed through `search_memories` aborts (the `.unwrap()` at
queries.rs:681), while the row conversion of `get_enhanced_memories` recovers
the very same row by substituting "now" for the bad `created_at` and `none`
for the bad `expires_at`. -/
theorem C9_search_aborts_on_malformed_timestamp :
    search_memories [rawRowEx] ("alpha") 0 = none ∧
    rowToMemory_enhanced 7 rawRowEx =
      { id := 1, key := "alpha_key", value := "v", category := "general",
        priority := 1, metadata := none, created_at := 7, updated_at := 0,
        expires_at := none, is_active := true } := by
  exact ⟨rfl, rfl⟩

/-- C2 (counterexample): on a store holding one pending task and one
priority-5 memory, the summary mentions only the task: the memory query
filters on priority = 4 exactly, so the priority-5 memory's key appears
nowhere in the returned text. -/
theorem C2_counterexample :
    MemoryService.get_memory_summary storeEx 0
        = "Pending tasks:\n- fix build [Priority: 3]\n" ∧
    rustContains (MemoryService.get_memory_summary storeEx 0) ("alpha_notes") = false ∧
    mem5ex.priority = 5 ∧ taskPendingEx.status = "pending" := by
  refine ⟨by decide, by decide, rfl, rfl⟩

/-- C6 (counterexample): updating a completed task (completion stamp 5) to
status "pending" leaves its `completed_at` stamp in place — the UPDATE simply
omits the column — contrary to the claim that any non-completed status leaves
the task with no `completedAt`. -/
theorem C6_counterexample :
    (update_task_status [taskDoneEx] 1 ("pending") 10).map Task.completed_at
      = [some 5] := by
  decide

theorem getD_false_of_ne_some_true {o : Option Bool} (h : o ≠ some true) :
    o.getD false = false := by
  cases o with
  | none => rfl
  | some b =>
      cases b with
      | false => rfl
      | true => exact absurd rfl h

theorem mem_of_mem_sqlTake {l : List α} {n : Int} {a : α}
    (h : a ∈ sqlTake n l) : a ∈ l := by
  unfold sqlTake at h
  split at h
  · exact h
  · exact List.mem_of_mem_take h

theorem mem_of_mem_sqlDrop {l : List α} {n : Int} {a : α}
    (h : a ∈ sqlDrop n l) : a ∈ l :=
  List.mem_of_mem_drop h

/-- Every memory on a returned page satisfies the shared WHERE predicate. -/
theorem memoryWhere_of_mem_page {db : List Memory} {q : MemoryQuery} {now : Int}
    {m : Memory} (h : m ∈ (get_enhanced_memories db q now).memories) :
    memoryWhere q now m = true := by
  simp only [get_enhanced_memories] at h
  have h2 := (List.mem_insertionSort _).mp (mem_of_mem_sqlDrop (mem_of_mem_sqlTake h))
  exact (List.mem_filter.mp h2).2

/-- Every task on a returned page satisfies the shared WHERE predicate. -/
theorem taskWhere_of_mem_page {db : List Task} {q : TaskQuery}
    {t : Task} (h : t ∈ (get_tasks db q).tasks) :
    taskWhere q t = true := by
  simp only [get_tasks] at h
  have h2 := (List.mem_insertionSort _).mp (mem_of_mem_sqlDrop (mem_of_mem_sqlTake h))
  exact (List.mem_filter.mp h2).2

/-- C8: with `includeExpired` absent or false, a returned memory page never
contains an inactive entry nor one whose expiry time is strictly in the past;
and the implicit expiry condition always accepts a row with no expiry. -/
theorem C8_default_reads_exclude_inactive_and_expired :
    (∀ (db : List Memory) (q : MemoryQuery) (now : Int) (m : Memory),
        q.include_expired ≠ some true →
        m ∈ (get_enhanced_memories db q now).memories →
        m.is_active = true ∧ ∀ e, m.expires_at = some e → ¬ e < now) ∧
    (∀ (now : Int) (m : Memory), m.expires_at = none → notExpired now m = true) := by
  constructor
  · intro db q now m hq hm
    have hw := memoryWhere_of_mem_page hm
    have hall := List.all_eq_true.mp hw
    constructor
    · have hmem : (fun m => m.is_active) ∈ memoryConditions q now := by
        unfold memoryConditions
        exact List.mem_append_right _ (List.mem_singleton.mpr rfl)
      simpa using hall _ hmem
    · intro e he
      have hmem : notExpired now ∈ memoryConditions q now := by
        unfold memoryConditions
        refine List.mem_append_left _ (List.mem_append_right _ ?_)
        rw [getD_false_of_ne_some_true hq]
        exact List.mem_singleton.mpr rfl
      have hne := hall _ hmem
      unfold notExpired at hne
      rw [he] at hne
      simp only [decide_eq_true_eq] at hne
      omega
  · intro now m h
    unfold notExpired
    rw [h]

/-- C8 witness: the hypotheses are satisfiable — a query with all filters
absent returns the concrete active, non-expired memory, which the theorem
then shows is active. -/
theorem C8_witness : mem5ex.is_active = true :=
  (C8_default_reads_exclude_inactive_and_expired.1
    [mem5ex] emptyMemQuery 0 mem5ex (by decide) (by decide)).1

/-- C6 (amended): default task reads never include `status="completed"`
unless `includeCompleted=true`; updating a task to "completed" sets its
`completed_at` to "now", and updating it to any other status leaves
`completed_at` unchanged (it is not cleared). -/
theorem C6_amended_completed_handling :
    (∀ (db : List Task) (q : TaskQuery) (t : Task),
        q.include_completed ≠ some true →
        t ∈ (get_tasks db q).tasks →
        t.status ≠ "completed") ∧
    (∀ (db : List Task) (id : Int) (status : String) (now : Int),
        (update_task_status db id status now).map
            (fun t => (t.id, t.status, t.completed_at)) =
          db.map (fun t =>
            if t.id = id then
              (t.id, status, if status = "completed" then some now else t.completed_at)
            else (t.id, t.status, t.completed_at))) := by
  constructor
  · intro db q t hq ht
    have hw := taskWhere_of_mem_page ht
    have hall := List.all_eq_true.mp hw
    have hmem : (fun t => !(t.status == "completed")) ∈ taskConditions q := by
      unfold taskConditions
      refine List.mem_append_right _ ?_
      rw [getD_false_of_ne_some_true hq]
      exact List.mem_singleton.mpr rfl
    simpa using hall _ hmem
  · intro db id status now
    unfold update_task_status
    rw [List.map_map]
    refine List.map_congr_left ?_
    intro t _
    by_cases hid : t.id = id
    · by_cases hst : status = "completed"
      · simp [Function.comp, hid, hst]
      · simp [Function.comp, hid, hst]
    · simp [Function.comp, hid]

/-- C6 witness: the hypotheses of the amended theorem's first part are
satisfiable at a concrete pending task returned by a default read. -/
theorem C6_witness : taskPendingEx.status ≠ "completed" :=
  C6_amended_completed_handling.1 [taskPendingEx] emptyTaskQuery taskPendingEx
    (by decide) (by decide)

theorem length_page_of_full_limit (db : List Memory) (q : MemoryQuery) (now : Int) :
    ((get_enhanced_memories db
        { q with limit := some (db.length : Int), offset := some 0 } now).memories).length
      = (db.filter (memoryWhere q now)).length := by
  have hpred : memoryWhere
      { q with limit := some (db.length : Int), offset := some 0 } now
      = memoryWhere q now := rfl
  simp only [get_enhanced_memories, sqlTake, sqlDrop, Option.getD_some, hpred]
  rw [if_neg (by exact not_lt.mpr (Int.natCast_nonneg _))]
  have hlen : (List.insertionSort memOrder (db.filter (memoryWhere q now))).length
      = (db.filter (memoryWhere q now)).length := List.length_insertionSort _ _
  have hle : (List.insertionSort memOrder
      (db.filter (memoryWhere q now))).length ≤ db.length := by
    rw [hlen]; exact List.length_filter_le _ _
  simp only [Int.toNat_ofNat, Int.toNat_zero, List.drop_zero]
  rw [List.take_of_length_le hle, hlen]

theorem length_task_page_of_full_limit (db : List Task) (q : TaskQuery) :
    ((get_tasks db
        { q with limit := some (db.length : Int), offset := some 0 }).tasks).length
      = (db.filter (taskWhere q)).length := by
  have hpred : taskWhere { q with limit := some (db.length : Int), offset := some 0 }
      = taskWhere q := rfl
  simp only [get_tasks, sqlTake, sqlDrop, Option.getD_some, hpred]
  rw [if_neg (by exact not_lt.mpr (Int.natCast_nonneg _))]
  have hlen : (List.insertionSort taskOrder (db.filter (taskWhere q))).length
      = (db.filter (taskWhere q)).length := List.length_insertionSort _ _
  have hle : (List.insertionSort taskOrder
      (db.filter (taskWhere q))).length ≤ db.length := by
    rw [hlen]; exact List.length_filter_le _ _
  simp only [Int.toNat_ofNat, Int.toNat_zero, List.drop_zero]
  rw [List.take_of_length_le hle, hlen]

/-- C1: for every Memory query and every Task query, the total returned with
the page is the count of all rows satisfying the same WHERE predicate the
page is filtered with, ignoring limit/offset; equivalently, it equals the
length of the page fetched with offset 0 and a limit covering the whole
table. -/
theorem C1_total_counts_same_where_predicate :
    ∀ (mdb : List Memory) (mq : MemoryQuery) (now : Int)
      (tdb : List Task) (tq : TaskQuery),
      (get_enhanced_memories mdb mq now).total
          = (mdb.filter (memoryWhere mq now)).length ∧
      ((get_enhanced_memories mdb
          { mq with limit := some (mdb.length : Int), offset := some 0 } now).memories).length
          = (get_enhanced_memories mdb mq now).total ∧
      (get_tasks tdb tq).total = (tdb.filter (taskWhere tq)).length ∧
      ((get_tasks tdb
          { tq with limit := some (tdb.length : Int), offset := some 0 }).tasks).length
          = (get_tasks tdb tq).total := by
  intro mdb mq now tdb tq
  refine ⟨rfl, ?_, rfl, ?_⟩
  · exact length_page_of_full_limit mdb mq now
  · exact length_task_page_of_full_limit tdb tq

/-- Lookup after a single upsert: the new row is found under its own key,
and lookups under any other key are unchanged. -/
theorem get_memory_by_key_insert (db : List Memory) (w : Memory) (k : String) :
    get_memory_by_key (insert_enhanced_memory db w) k =
      if w.key == k then some w else get_memory_by_key db k := by
  unfold get_memory_by_key insert_enhanced_memory
  rw [List.filter_append, List.filter_filter]
  by_cases hwk : w.key = k
  · subst hwk
    have h1 : db.filter (fun r => (r.key == w.key) && !(r.key == w.key)) = [] := by
      simp
    rw [h1]
    simp
  · have hb : (w.key == k) = false := by simp [hwk]
    have h1 : db.filter (fun r => (r.key == k) && !(r.key == w.key))
        = db.filter (fun r => r.key == k) := by
      refine List.filter_congr ?_
      intro r _
      by_cases hrk : r.key = k
      · simp [hrk, hwk, Ne.symm]
      · simp [hrk]
    rw [h1, hb]
    simp [List.filter_cons, hb]

/-- Lookup after a sequence of upserts: the last write to the key wins, and
keys never written keep their old binding. -/
theorem get_memory_by_key_applyWrites (ws : List Memory) (db : List Memory)
    (k : String) :
    get_memory_by_key (applyWrites db ws) k =
      ((ws.filter (fun w => w.key == k)).getLast?).or (get_memory_by_key db k) := by
  induction ws generalizing db with
  | nil => simp [applyWrites]
  | cons w ws ih =>
      have happ : applyWrites db (w :: ws) = applyWrites (insert_enhanced_memory db w) ws := rfl
      rw [happ, ih, get_memory_by_key_insert]
      by_cases hwk : w.key = k
      · have hb : (w.key == k) = true := by simp [hwk]
        have hf : List.filter (fun w2 => w2.key == k) (w :: ws)
            = w :: List.filter (fun w2 => w2.key == k) ws := by
          simp [List.filter_cons, hb]
        rw [hf, if_pos hb]
        cases hfk : List.filter (fun w2 => w2.key == k) ws with
        | nil => simp
        | cons a t =>
            rw [List.getLast?_cons_cons]
            cases hgl : (a :: t).getLast? with
            | none => simp at hgl
            | some x => simp
      · have hb : (w.key == k) = false := by simp [hwk]
        have hf : List.filter (fun w2 => w2.key == k) (w :: ws)
            = List.filter (fun w2 => w2.key == k) ws := by
          simp [List.filter_cons, hb]
        rw [hf, if_neg (by simp [hb])]

/-- A single upsert preserves the UNIQUE-key invariant. -/
theorem nodupKeys_insert {db : List Memory} (w : Memory) (h : NodupKeys db) :
    NodupKeys (insert_enhanced_memory db w) := by
  unfold NodupKeys insert_enhanced_memory
  rw [List.map_append]
  refine List.Nodup.append ?_ (by simp) ?_
  · exact List.Nodup.sublist (List.Sublist.map _ (List.filter_sublist db)) h
  · intro x hx hx2
    simp only [List.map_cons, List.map_nil, List.mem_singleton] at hx2
    obtain ⟨r, hr, hrk⟩ := List.mem_map.mp hx
    have := (List.mem_filter.mp hr).2
    simp only [Bool.not_eq_true', beq_eq_false_iff_ne] at this
    exact this (hrk.trans hx2)

/-- A sequence of upserts preserves the UNIQUE-key invariant. -/
theorem nodupKeys_applyWrites (ws : List Memory) (db : List Memory)
    (h : NodupKeys db) : NodupKeys (applyWrites db ws) := by
  induction ws generalizing db with
  | nil => exact h
  | cons w ws ih => exact ih (insert_enhanced_memory db w) (nodupKeys_insert w h)

/-- C5: `insert_enhanced_memory` upserts by key — starting from a store whose
keys are unique, any sequence of writes keeps keys unique (at most one entry
per key ever exists), and once some write in the sequence targets key `k`, a
read by `k` returns exactly the most recent write with that key. -/
theorem C5_upsert_by_key_last_writer_wins :
    ∀ (db ws : List Memory) (k : String), NodupKeys db →
      NodupKeys (applyWrites db ws) ∧
      ((∃ w ∈ ws, w.key = k) →
        get_memory_by_key (applyWrites db ws) k =
          (ws.filter (fun w => w.key == k)).getLast?) := by
  intro db ws k hdb
  constructor
  · exact nodupKeys_applyWrites ws db hdb
  · rintro ⟨w, hw, hwk⟩
    rw [get_memory_by_key_applyWrites]
    have hmem : w ∈ ws.filter (fun w2 => w2.key == k) :=
      List.mem_filter.mpr ⟨hw, by simp [hwk]⟩
    have hne := List.ne_nil_of_mem hmem
    cases hfk : (ws.filter (fun w2 => w2.key == k)).getLast? with
    | none => exact absurd (List.getLast?_eq_none_iff.mp hfk) hne
    | some x => simp

/-- C5 witness: from the empty store, after writing "v1" then "v2" under the
same key "dup_key", a read by that key returns the second write. -/
theorem C5_witness :
    get_memory_by_key (applyWrites [] [memW1, memW2]) ("dup_key") = some memW2 := by
  have h := (C5_upsert_by_key_last_writer_wins [] [memW1, memW2] ("dup_key")
    (by decide)).2 ⟨memW2, by decide, by decide⟩
  rw [h]
  decide

theorem str_empty_append (s : String) : ("" : String) ++ s = s := by
  cases s
  rfl

theorem str_head_append (p s : String) (c : Char)
    (hp : p.data.head? = some c) : (p ++ s).data.head? = some c := by
  rw [String.data_append, List.head?_append, hp]
  rfl

theorem str_ne_of_head {s t : String} {c d : Char}
    (hs : s.data.head? = some c) (ht : t.data.head? = some d) (h : c ≠ d) :
    s ≠ t := by
  intro he
  subst he
  rw [hs] at ht
  exact h (Option.some.inj ht)

theorem str_ne_empty_of_head {s : String} {c : Char}
    (hs : s.data.head? = some c) : s ≠ "" := by
  intro he
  subst he
  exact Option.noConfusion hs

theorem str_append_eq_empty {s t : String} (h : s ++ t = "") :
    s = "" ∧ t = "" := by
  cases s with
  | mk ds =>
      cases t with
      | mk dt =>
          have hd : ds ++ dt = [] := congrArg String.data h
          obtain ⟨h1, h2⟩ := List.append_eq_nil.mp hd
          subst h1
          subst h2
          exact ⟨rfl, rfl⟩

/-- When the summary's memory query returned rows, the memory section starts
with the letter R. -/
theorem memSection_head {l : List Memory} (h : l ≠ []) :
    (MemoryService.memSection l).data.head? = some ('R') := by
  unfold MemoryService.memSection
  rw [if_neg (by simp [h])]
  exact str_head_append _ _ _ (str_head_append _ _ _ rfl)

/-- When there are pending tasks, the task section starts with the letter P. -/
theorem taskSection_head {l : List Task} (h : l ≠ []) :
    (MemoryService.taskSection l).data.head? = some ('P') := by
  unfold MemoryService.taskSection
  rw [if_neg (by simp [h])]
  exact str_head_append _ _ _ rfl

/-- C2 (amended): the summary composes the memories with priority exactly 4
(limit 5) plus all pending tasks, and returns the fixed "nothing found"
sentence exactly when both of those reads are empty; on a store holding one
pending task and one priority-5 memory it returns non-empty text mentioning
the task but not the memory. -/
theorem C2_amended_summary_behaviour :
    (∀ (st : MemoryService.Store) (now : Int),
        MemoryService.get_memory_summary st now = MemoryService.noResultsMsg ↔
          ((get_enhanced_memories st.memories MemoryService.summaryMemQuery now).memories = [] ∧
            MemoryService.get_pending_tasks st.tasks true = [])) ∧
    (MemoryService.get_memory_summary storeEx 0 ≠ MemoryService.noResultsMsg ∧
      rustContains (MemoryService.get_memory_summary storeEx 0) ("fix build") = true ∧
      rustContains (MemoryService.get_memory_summary storeEx 0) ("alpha_notes") = false) := by
  constructor
  · intro st now
    simp only [MemoryService.get_memory_summary]
    constructor
    · intro h
      by_cases hm : (get_enhanced_memories st.memories MemoryService.summaryMemQuery now).memories = []
      · by_cases ht : MemoryService.get_pending_tasks st.tasks true = []
        · exact ⟨hm, ht⟩
        · exfalso
          have hth := taskSection_head ht
          have hms : MemoryService.memSection
              (get_enhanced_memories st.memories MemoryService.summaryMemQuery now).memories
              = "" := by rw [hm]; rfl
          rw [hms, str_empty_append] at h
          rw [if_neg (str_ne_empty_of_head hth)] at h
          exact str_ne_of_head hth
            (show MemoryService.noResultsMsg.data.head? = some ('N') from rfl)
            (by decide) h
      · exfalso
        have hmh := memSection_head hm
        have hsh := str_head_append _
          (MemoryService.taskSection (MemoryService.get_pending_tasks st.tasks true)) _ hmh
        rw [if_neg (str_ne_empty_of_head hsh)] at h
        exact str_ne_of_head hsh
          (show MemoryService.noResultsMsg.data.head? = some ('N') from rfl)
          (by decide) h
    · rintro ⟨hm, ht⟩
      rw [hm, ht]
      rfl
  · refine ⟨?_, by decide, by decide⟩
    have hth := taskSection_head
      (show MemoryService.get_pending_tasks storeEx.tasks true ≠ [] by decide)
    intro h
    revert h
    simp only [MemoryService.get_memory_summary]
    have hms : MemoryService.memSection
        (get_enhanced_memories storeEx.memories MemoryService.summaryMemQuery 0).memories
        = "" := by decide
    rw [hms, str_empty_append]
    rw [if_neg (str_ne_empty_of_head hth)]
    exact str_ne_of_head hth
      (show MemoryService.noResultsMsg.data.head? = some ('N') from rfl)
      (by decide)

end Leara
